import Mathlib

/-!
Verification of the launchlens response-extraction and heuristic-scoring
pipeline (src/lib/market-analyzer.js, src/lib/validator.js, and the
competitor-research server module).

Embedding conventions:
* JS strings are Lean `String`s; character-level work happens on `String.data`.
* JS numbers are modeled exactly: integers as `Nat`, parsed fractional
  values as `ℚ`.  A JS `NaN` produced by a failed numeric parse is modeled as
  `none` of an `Option ℚ` (every `NaN` comparison in the source is false,
  which the embedding reproduces at each use site).  The scoring engine's
  floating-point expression `a*0.4 + b*0.3 + c*0.3`, whose double rounding is
  observable at the verdict thresholds, is modeled bit-exactly: doubles are
  dyadic rationals and every operation rounds to 53 significant bits,
  nearest-even (see `Dyadic` below).
* `parseFloat` is modeled for plain decimal literals (optional sign, digits,
  optional fraction); exponent notation, `Infinity` and hex forms never occur
  in this program's inputs and parse to `none` here.
* The regular expressions of the source are compiled by hand into
  character-list scanners.  Every pattern used by the source has disjoint
  character classes at each boundary, so greedy scanning without backtracking
  is exact; lazy groups are realized by shortest-first growth.
* Whitespace (`\s`, `trim`) is modeled over the ASCII whitespace characters
  plus NBSP, the only ones occurring in this program's data.
-/

namespace LaunchLens

/-- JS whitespace class, restricted to the characters that can occur here. -/
def jsWhitespace (c : Char) : Bool :=
  c == ' ' || c == '\t' || c == '\n' || c == '\r' || c == '\x0b' || c == '\x0c' || c == '\xa0'

/-- Model of `String.prototype.trim`. -/
def jsTrim (cs : List Char) : List Char :=
  ((cs.dropWhile jsWhitespace).reverse.dropWhile jsWhitespace).reverse

/-- Model of `String.prototype.toLowerCase` (ASCII range). -/
def toLowerList (cs : List Char) : List Char := cs.map Char.toLower

def jsToLower (s : String) : String := ⟨toLowerList s.data⟩

def jsTrimS (s : String) : String := ⟨jsTrim s.data⟩

/-- Numeric value of a digit string (most significant first). -/
def digitsValN (cs : List Char) : ℕ :=
  cs.foldl (fun a c => a * 10 + (c.toNat - '0'.toNat)) 0

/-- Unsigned part of `parseFloat`: digits, optional fraction (the integer
part `cs.takeWhile Char.isDigit`, and after a dot the fraction digits). -/
def parseUnsignedQ (cs : List Char) : Option ℚ :=
  if (cs.takeWhile Char.isDigit).isEmpty then
    match cs.dropWhile Char.isDigit with
    | '.' :: rest2 =>
      if (rest2.takeWhile Char.isDigit).isEmpty then none
      else some ((digitsValN (rest2.takeWhile Char.isDigit) : ℚ) /
        (10 ^ (rest2.takeWhile Char.isDigit).length))
    | _ => none
  else
    match cs.dropWhile Char.isDigit with
    | '.' :: rest2 =>
      some ((digitsValN (cs.takeWhile Char.isDigit) : ℚ) +
        (digitsValN (rest2.takeWhile Char.isDigit) : ℚ) /
          (10 ^ (rest2.takeWhile Char.isDigit).length))
    | _ => some ((digitsValN (cs.takeWhile Char.isDigit) : ℚ))

/-- Model of JS `parseFloat` (`none` = `NaN`). -/
def parseFloatQ (cs : List Char) : Option ℚ :=
  match cs.dropWhile jsWhitespace with
  | '-' :: rest => (parseUnsignedQ rest).map Neg.neg
  | '+' :: rest => parseUnsignedQ rest
  | cs2 => parseUnsignedQ cs2

/-! ### parseMarketValue (market-analyzer.js lines 401-412)

The source regex is `/\$([\d.]+)\s*([BbMmTt])/`; its three character classes
are pairwise disjoint, so the leftmost match is found by trying every start
position in order, taking the maximal digit-or-dot run after a literal `$`,
skipping whitespace and demanding a unit character. -/

def isDigitOrDot (c : Char) : Bool := c.isDigit || c == '.'

def isUnitChar (c : Char) : Bool :=
  c == 'B' || c == 'b' || c == 'M' || c == 'm' || c == 'T' || c == 't'

/-- Attempt the regex body just after a `$`. -/
def marketMatchAfterDollar (cs : List Char) : Option (List Char × Char) :=
  if (cs.takeWhile isDigitOrDot).isEmpty then none
  else
    match (cs.dropWhile isDigitOrDot).dropWhile jsWhitespace with
    | c :: _ => if isUnitChar c then some (cs.takeWhile isDigitOrDot, c) else none
    | [] => none

/-- Leftmost match of `/\$([\d.]+)\s*([BbMmTt])/`: try each start position in
order; a match must begin with a literal `$`. -/
def marketScan : List Char → Option (List Char × Char)
  | [] => none
  | c :: rest =>
    if c = '$' then
      match marketMatchAfterDollar rest with
      | some r => some r
      | none => marketScan rest
    else marketScan rest

/-- market-analyzer.js `parseMarketValue`.  Result `none` models the `NaN`
produced when the captured group (for example `".."`) has no parseable
leading number; every number result is `some`. -/
def parseMarketValue (s : String) : Option ℚ :=
  match marketScan s.data with
  | none => some 0
  | some (num, u) =>
    match parseFloatQ num with
    | none => none
    | some value =>
      if u.toLower == 't' then some (value * 1000000)
      else if u.toLower == 'b' then some (value * 1000)
      else some value

/-! ### Generic list helpers -/

theorem takeWhile_append_cons (p : Char → Bool) (l : List Char) (h : ∀ a ∈ l, p a = true)
    (c : Char) (hc : p c = false) (r : List Char) :
    (l ++ c :: r).takeWhile p = l := by
  induction l with
  | nil => simp [List.takeWhile_cons, hc]
  | cons a tl ih =>
    have ha := h a (List.mem_cons_self a tl)
    simp [List.takeWhile_cons, ha, ih (fun x hx => h x (List.mem_cons_of_mem a hx))]

theorem dropWhile_append_cons (p : Char → Bool) (l : List Char) (h : ∀ a ∈ l, p a = true)
    (c : Char) (hc : p c = false) (r : List Char) :
    (l ++ c :: r).dropWhile p = c :: r := by
  induction l with
  | nil => simp [List.dropWhile_cons, hc]
  | cons a tl ih =>
    have ha := h a (List.mem_cons_self a tl)
    simp [List.dropWhile_cons, ha, ih (fun x hx => h x (List.mem_cons_of_mem a hx))]

theorem digit_not_ws (c : Char) (h : c.isDigit = true) : jsWhitespace c = false := by
  by_contra hc
  rw [Bool.not_eq_false] at hc
  simp only [jsWhitespace, Bool.or_eq_true, beq_iff_eq] at hc
  rcases hc with ((((((rfl | rfl) | rfl) | rfl) | rfl) | rfl) | rfl) <;>
    exact absurd h (by decide)

/-! ### Data model -/

structure Competitor where
  name : String
  description : String
deriving DecidableEq

/-- Result record of `analyzeMarketSize`.  `rawData` is present only on the
network-success path. -/
structure MarketSizeResult where
  marketSize : String
  growthRate : String
  funding : String
  confidence : String
  rawData : Option String
deriving DecidableEq

/-- Result record of `analyzeCustomerPain`.  `painLevel` is the JS number
field; `none` models an absent field, and the source reads it through
`painData.painLevel || 5` so `none` and `some 0` behave alike. -/
structure PainResult where
  painLevel : Option ℕ
  unmetNeeds : List String
  searchVolume : String
  rawData : Option String
deriving DecidableEq

/-- Result record of `analyzeCompetitorQuality`. -/
structure QualityResult where
  avgFunding : String
  satisfaction : ℕ
  marketConcentration : String
  rawData : Option String
deriving DecidableEq

/-- The second argument of `calculateMarketScore`: a JS array of competitors
that, being an object, may in principle carry a `marketConcentration`
expando property (`none` models the absent property). -/
structure CompetitorData where
  competitors : List Competitor
  marketConcentration : Option String
deriving DecidableEq

inductive Verdict | YES | MAYBE | NO
deriving DecidableEq

structure ScoreBreakdown where
  overall : ℚ
  marketOpportunity : ℕ
  competition : ℕ
  entryFeasibility : ℕ
  verdict : Verdict
deriving DecidableEq

/-! ### IEEE-754 binary64 model for the weighted score

`weightedScore` (market-analyzer.js lines 386-390) is computed in JS doubles.
Every value reachable in that expression is a nonnegative normal double, so a
double is modeled as a nonnegative dyadic rational `num / 2^exp`, and each
arithmetic operation rounds its exact result to 53 significant bits with
round-to-nearest, ties-to-even — exactly the IEEE behavior on this range
(no overflow, no subnormals; every exponent stays far above the shifts
involved). -/

structure Dyadic where
  num : ℕ
  exp : ℕ
deriving DecidableEq

/-- Exact rational value of a dyadic. -/
def Dyadic.toRat (d : Dyadic) : ℚ := (d.num : ℚ) / 2 ^ d.exp

/-- Smallest `s` with `n < 2^(53+s)`: how far `n` must be shifted right to
fit in 53 bits.  The fuel 128 covers every number in this development. -/
def shift53Aux (n : ℕ) : ℕ → ℕ → ℕ → ℕ
  | 0, s, _ => s
  | fuel + 1, s, p => if n < p then s else shift53Aux n fuel (s + 1) (2 * p)

def shift53 (n : ℕ) : ℕ := shift53Aux n 128 0 (2 ^ 53)

/-- Round `n` right by `s ≥ 1` bits, nearest, ties to even. -/
def roundMantissa (n s : ℕ) : ℕ :=
  if 2 ^ (s - 1) < n % 2 ^ s then n / 2 ^ s + 1
  else if n % 2 ^ s < 2 ^ (s - 1) then n / 2 ^ s
  else if (n / 2 ^ s) % 2 = 0 then n / 2 ^ s else n / 2 ^ s + 1

/-- Round the exact dyadic `n / 2^k` to a 53-bit significand. -/
def dyRound (n k : ℕ) : Dyadic :=
  if shift53 n = 0 then ⟨n, k⟩ else ⟨roundMantissa n (shift53 n), k - shift53 n⟩

/-- IEEE double multiplication (correctly rounded). -/
def Dyadic.mul (x y : Dyadic) : Dyadic := dyRound (x.num * y.num) (x.exp + y.exp)

/-- IEEE double addition (correctly rounded). -/
def Dyadic.add (x y : Dyadic) : Dyadic :=
  dyRound (x.num * 2 ^ (max x.exp y.exp - x.exp) + y.num * 2 ^ (max x.exp y.exp - y.exp))
    (max x.exp y.exp)

/-- Small integers are exact doubles. -/
def Dyadic.ofNat (n : ℕ) : Dyadic := ⟨n, 0⟩

/-- The `<=` comparison on doubles (exact on the values). -/
def Dyadic.le (x y : Dyadic) : Prop := x.num * 2 ^ y.exp ≤ y.num * 2 ^ x.exp

instance Dyadic.decLe (x y : Dyadic) : Decidable (x.le y) :=
  inferInstanceAs (Decidable (x.num * 2 ^ y.exp ≤ y.num * 2 ^ x.exp))

/-- The double nearest to `a / b` (round to nearest, ties to even): scale by
`2^120` so the quotient carries more than 53 significant bits, then round,
using the division remainder as the sticky part for exact tie detection.
Models both the parsing of a decimal literal and a JS division, for the
moderate-sized `a/b` occurring here. -/
def divRound (a b : ℕ) : Dyadic :=
  if a = 0 then ⟨0, 0⟩
  else
    let Q := a * 2 ^ 120 / b
    let R := a * 2 ^ 120 % b
    let s := shift53 Q
    let q := Q / 2 ^ s
    let r := Q % 2 ^ s
    if 2 ^ (s - 1) * b < r * b + R then ⟨q + 1, 120 - s⟩
    else if r * b + R < 2 ^ (s - 1) * b then ⟨q, 120 - s⟩
    else if q % 2 = 0 then ⟨q, 120 - s⟩
    else ⟨q + 1, 120 - s⟩

/-- The double denoted by the literal `0.4` (nearest double to `2/5`). -/
def d04 : Dyadic := ⟨7205759403792794, 54⟩

/-- The double denoted by the literal `0.3` (nearest double to `3/10`). -/
def d03 : Dyadic := ⟨5404319552844595, 54⟩

theorem d04_eq_divRound : d04 = divRound 2 5 := by decide

theorem d03_eq_divRound : d03 = divRound 3 10 := by decide

/-- `Math.round` of a (nonnegative) double: nearest integer, half toward
positive infinity, on the exact value. -/
def Dyadic.jsRoundN (d : Dyadic) : ℕ :=
  if d.exp = 0 then d.num else (d.num + 2 ^ (d.exp - 1)) / 2 ^ d.exp

theorem Dyadic.toRat_nonneg (d : Dyadic) : 0 ≤ d.toRat := by
  unfold Dyadic.toRat
  positivity

theorem Dyadic.toRat_ofNat (n : ℕ) : (Dyadic.ofNat n).toRat = n := by
  unfold Dyadic.ofNat Dyadic.toRat
  norm_num

theorem Dyadic.le_iff_toRat (x y : Dyadic) : x.le y ↔ x.toRat ≤ y.toRat := by
  unfold Dyadic.le Dyadic.toRat
  rw [div_le_div_iff₀ (by positivity) (by positivity)]
  constructor <;> intro h <;> exact_mod_cast h

theorem Dyadic.toRat_le_of_num_le (d : Dyadic) (m : ℕ) (h : d.num ≤ m * 2 ^ d.exp) :
    d.toRat ≤ m := by
  unfold Dyadic.toRat
  rw [div_le_iff₀ (by positivity)]
  exact_mod_cast h

/-! ### calculateMarketScore (market-analyzer.js lines 350-399) -/

/-- Lines 351-362: initial market-opportunity tier.  The `none` branch of
`parseMarketValue` models `NaN`, on which every source comparison is false,
so control falls through to the final `else`. -/
def marketOppBase (marketSize : String) : ℕ :=
  if marketSize = "Unknown" then 5
  else
    match parseMarketValue marketSize with
    | none => 2
    | some sizeValue =>
      if sizeValue > 10000 then 10
      else if sizeValue > 1000 then 8
      else if sizeValue > 100 then 6
      else if sizeValue > 10 then 4
      else 2

/-- Lines 351-369: market-opportunity sub-score after the growth-rate
adjustment (`none` from `parseFloat` models `NaN`: no branch taken). -/
def marketOpportunityScore (md : MarketSizeResult) : ℕ :=
  if md.growthRate = "Unknown" then marketOppBase md.marketSize
  else
    match parseFloatQ md.growthRate.data with
    | none => marketOppBase md.marketSize
    | some growth =>
      if growth > 30 then min 10 (marketOppBase md.marketSize + 2)
      else if growth > 15 then min 10 (marketOppBase md.marketSize + 1)
      else if growth < 5 then max 1 (marketOppBase md.marketSize - 2)
      else marketOppBase md.marketSize

/-- Lines 371-376: competition sub-score from the competitor count. -/
def competitionScoreOfCount (n : ℕ) : ℕ :=
  if n = 0 then 3
  else if n ≤ 2 then 5
  else if n ≤ 5 then 8
  else if n ≤ 10 then 6
  else 3

/-- Line 378: `painData.painLevel || 5` (absent and `0` are both falsy). -/
def painBase : Option ℕ → ℕ
  | none => 5
  | some 0 => 5
  | some (n + 1) => n + 1

/-- Lines 378-384: entry-feasibility sub-score. -/
def entryFeasibilityOf (cd : CompetitorData) (pd : PainResult) : ℕ :=
  if cd.marketConcentration = some "Highly concentrated" then max 1 (painBase pd.painLevel - 3)
  else if cd.marketConcentration = some "Fragmented" then min 10 (painBase pd.painLevel + 2)
  else painBase pd.painLevel

/-- Lines 386-390 for abstract sub-scores: the IEEE-double expression
`a*0.4 + b*0.3 + c*0.3`, evaluated left to right with each operation
correctly rounded. -/
def weightedOfTriple (a b c : ℕ) : Dyadic :=
  (((Dyadic.ofNat a).mul d04).add ((Dyadic.ofNat b).mul d03)).add ((Dyadic.ofNat c).mul d03)

/-- Lines 386-390: the local `weightedScore` double. -/
def weightedScoreD (md : MarketSizeResult) (cd : CompetitorData) (pd : PainResult) : Dyadic :=
  weightedOfTriple (marketOpportunityScore md) (competitionScoreOfCount cd.competitors.length)
    (entryFeasibilityOf cd pd)

/-- Line 393: `Math.round(weightedScore * 10) / 10` in doubles — the `* 10`
is a rounded double multiplication, `Math.round` rounds the exact value half
up to an integer (exactly representable), and `/ 10` is a correctly rounded
double division.  The result is reported as its exact rational value. -/
def overallOf (w : Dyadic) : ℚ :=
  (divRound (Dyadic.jsRoundN (w.mul (Dyadic.ofNat 10))) 10).toRat

/-- Line 397: the verdict ternary, evaluated on the unrounded double
`weightedScore`, not on the rounded `overall`. -/
def verdictOf (w : Dyadic) : Verdict :=
  if Dyadic.le (Dyadic.ofNat 7) w then Verdict.YES
  else if Dyadic.le (Dyadic.ofNat 4) w then Verdict.MAYBE
  else Verdict.NO

/-- market-analyzer.js `calculateMarketScore`. -/
def calculateMarketScore (md : MarketSizeResult) (cd : CompetitorData) (pd : PainResult) :
    ScoreBreakdown :=
  { overall := overallOf (weightedScoreD md cd pd)
    marketOpportunity := marketOpportunityScore md
    competition := competitionScoreOfCount cd.competitors.length
    entryFeasibility := entryFeasibilityOf cd pd
    verdict := verdictOf (weightedScoreD md cd pd) }

/-! ### Helper lemmas for the scoring theorems -/

set_option maxHeartbeats 1600000 in
set_option maxRecDepth 16384 in
/-- For every sub-score triple in range, rounding ten times the double
weighted sum recovers the exact integer `4a + 3b + 3c`: the accumulated
double error is far below the half-unit rounding margin.  Checked by
exhaustive computation over all 11³ triples. -/
theorem jsRound_weighted_triple : ∀ a ≤ 10, ∀ b ≤ 10, ∀ c ≤ 10,
    Dyadic.jsRoundN ((weightedOfTriple a b c).mul (Dyadic.ofNat 10)) =
      4 * a + 3 * b + 3 * c := by decide

set_option maxHeartbeats 1000000 in
set_option maxRecDepth 16384 in
/-- The double `n/10` never exceeds 10 for `n ≤ 100`. -/
theorem divRound_ten_le : ∀ n ≤ 100, (divRound n 10).num ≤ 10 * 2 ^ (divRound n 10).exp := by
  decide

theorem marketOppBase_bounds (s : String) : 2 ≤ marketOppBase s ∧ marketOppBase s ≤ 10 := by
  unfold marketOppBase
  repeat' split
  all_goals omega

theorem marketOpportunityScore_bounds (md : MarketSizeResult) :
    1 ≤ marketOpportunityScore md ∧ marketOpportunityScore md ≤ 10 := by
  have hb := marketOppBase_bounds md.marketSize
  unfold marketOpportunityScore
  repeat' split
  all_goals omega

theorem competitionScoreOfCount_bounds (n : ℕ) :
    3 ≤ competitionScoreOfCount n ∧ competitionScoreOfCount n ≤ 8 := by
  unfold competitionScoreOfCount
  repeat' split
  all_goals omega

theorem painBase_pos (o : Option ℕ) : 1 ≤ painBase o := by
  rcases o with _ | (_ | n) <;> simp [painBase]

theorem painBase_le (o : Option ℕ) (h : ∀ n, o = some n → n ≤ 10) : painBase o ≤ 10 := by
  rcases o with _ | (_ | n)
  · simp [painBase]
  · simp [painBase]
  · have := h (n + 1) rfl
    simpa [painBase] using this

theorem entryFeasibilityOf_bounds (cd : CompetitorData) (pd : PainResult)
    (h : ∀ n, pd.painLevel = some n → n ≤ 10) :
    1 ≤ entryFeasibilityOf cd pd ∧ entryFeasibilityOf cd pd ≤ 10 := by
  have h1 := painBase_pos pd.painLevel
  have h2 := painBase_le pd.painLevel h
  unfold entryFeasibilityOf
  repeat' split
  all_goals omega

/-- Fixture: the degraded market data (everything `Unknown`). -/
def mdUnknown : MarketSizeResult := ⟨"Unknown", "Unknown", "Unknown", "low", none⟩

/-- Fixture: the degraded pain data (`painLevel` 5). -/
def pdDefault : PainResult := ⟨some 5, [], "Unknown", none⟩

/-- Fixture competitor record. -/
def compA : Competitor := ⟨"Competitor", "Description"⟩

/-- Market data scoring as sub-score 1: `"$5M"` puts the size tier at 2 and
the 2% growth rate applies the `-2` adjustment floored at 1. -/
def mdCex : MarketSizeResult := ⟨"$5M", "2%", "Unknown", "high", none⟩

/-- Six competitors: competition sub-score 6. -/
def cdCex : CompetitorData := ⟨List.replicate 6 compA, none⟩

/-- Pain level 6: entry-feasibility sub-score 6. -/
def pdCex : PainResult := ⟨some 6, [], "Unknown", none⟩

/-- The double weighted sum at the (1, 6, 6) boundary triple is
`9007199254740991 / 2^51 = 3.9999999999999996`, strictly below 4. -/
theorem weightedScoreD_cex_eq :
    weightedScoreD mdCex cdCex pdCex = ⟨9007199254740991, 51⟩ := by decide

/-- Rounding ten times that double and dividing by ten gives exactly 4. -/
theorem overall_cex_eq :
    divRound (Dyadic.jsRoundN (((⟨9007199254740991, 51⟩ : Dyadic)).mul (Dyadic.ofNat 10))) 10 =
      ⟨4503599627370496, 50⟩ := by decide

attribute [irreducible] shift53Aux

set_option maxHeartbeats 1000000 in
set_option maxRecDepth 16384 in
/-- Counterexample for C1: at sub-scores (1, 6, 6) — market `"$5M"` growing
2%, six competitors, pain level 6 — the double weighted sum is
`9007199254740991/2^51 = 3.9999999999999996 < 4`, so the program returns
verdict NO while `Math.round` still yields overall `4.0`.  This falsifies
the claimed biconditionals `MAYBE ↔ 4 ≤ overall < 7` and `NO ↔ overall < 4`
between the returned verdict and the returned overall. -/
theorem calculateMarketScore_verdict_boundary_cex :
    (calculateMarketScore mdCex cdCex pdCex).overall = 4
    ∧ (calculateMarketScore mdCex cdCex pdCex).verdict = Verdict.NO
    ∧ ¬((calculateMarketScore mdCex cdCex pdCex).verdict = Verdict.MAYBE ↔
        4 ≤ (calculateMarketScore mdCex cdCex pdCex).overall ∧
          (calculateMarketScore mdCex cdCex pdCex).overall < 7)
    ∧ ¬((calculateMarketScore mdCex cdCex pdCex).verdict = Verdict.NO ↔
        (calculateMarketScore mdCex cdCex pdCex).overall < 4) := by
  have hov : (calculateMarketScore mdCex cdCex pdCex).overall = 4 := by
    show (divRound
      (Dyadic.jsRoundN ((weightedScoreD mdCex cdCex pdCex).mul (Dyadic.ofNat 10))) 10).toRat = 4
    rw [weightedScoreD_cex_eq, overall_cex_eq]
    show ((4503599627370496 : ℕ) : ℚ) / 2 ^ (50 : ℕ) = 4
    norm_num
  have hvn : (calculateMarketScore mdCex cdCex pdCex).verdict = Verdict.NO := by
    show verdictOf (weightedScoreD mdCex cdCex pdCex) = Verdict.NO
    rw [weightedScoreD_cex_eq]
    decide
  refine ⟨hov, hvn, ?_, ?_⟩
  · intro hiff
    have hm : (calculateMarketScore mdCex cdCex pdCex).verdict = Verdict.MAYBE :=
      hiff.mpr (by rw [hov]; norm_num)
    exact absurd (hvn.symm.trans hm) (by decide)
  · intro hiff
    have hlt := hiff.mp hvn
    rw [hov] at hlt
    norm_num at hlt

set_option maxHeartbeats 1000000 in
set_option maxRecDepth 16384 in
/-- C1 (amended): the returned `overall` is the double closest to
`(4·marketOpportunity + 3·competition + 3·entryFeasibility) / 10`, i.e. the
weighted sum rounded to one decimal (for all in-range sub-scores the double
error never perturbs `Math.round(weightedScore*10)`); but the verdict
thresholds are evaluated on the unrounded IEEE-double `weightedScore`, not
on the returned overall: YES exactly when that double is `≥ 7`, MAYBE
exactly when it is `≥ 4` and `< 7`, and NO otherwise.  At boundary triples
the two disagree: with sub-scores (1, 6, 6) the program returns overall 4.0
with verdict NO. -/
theorem calculateMarketScore_overall_verdict (md : MarketSizeResult) (cd : CompetitorData)
    (pd : PainResult) (hpain : ∀ n, pd.painLevel = some n → n ≤ 10) :
    (calculateMarketScore md cd pd).overall =
      (divRound (4 * (calculateMarketScore md cd pd).marketOpportunity
        + 3 * (calculateMarketScore md cd pd).competition
        + 3 * (calculateMarketScore md cd pd).entryFeasibility) 10).toRat
    ∧ ((calculateMarketScore md cd pd).verdict = Verdict.YES ↔
        7 ≤ (weightedScoreD md cd pd).toRat)
    ∧ ((calculateMarketScore md cd pd).verdict = Verdict.MAYBE ↔
        4 ≤ (weightedScoreD md cd pd).toRat ∧ (weightedScoreD md cd pd).toRat < 7)
    ∧ ((calculateMarketScore md cd pd).verdict = Verdict.NO ↔
        (weightedScoreD md cd pd).toRat < 4)
    ∧ (calculateMarketScore mdCex cdCex pdCex).overall = 4
    ∧ (calculateMarketScore mdCex cdCex pdCex).verdict = Verdict.NO := by
  have hmo := marketOpportunityScore_bounds md
  have hco := competitionScoreOfCount_bounds cd.competitors.length
  have hef := entryFeasibilityOf_bounds cd pd hpain
  have h7 := Dyadic.le_iff_toRat (Dyadic.ofNat 7) (weightedScoreD md cd pd)
  have h4 := Dyadic.le_iff_toRat (Dyadic.ofNat 4) (weightedScoreD md cd pd)
  rw [Dyadic.toRat_ofNat] at h7 h4
  push_cast at h7 h4
  have hv : (calculateMarketScore md cd pd).verdict = verdictOf (weightedScoreD md cd pd) := rfl
  have hvncex : (calculateMarketScore mdCex cdCex pdCex).verdict = Verdict.NO := by
    show verdictOf (weightedScoreD mdCex cdCex pdCex) = Verdict.NO
    rw [weightedScoreD_cex_eq]
    decide
  refine ⟨?_, ?_, ?_, ?_, ?_, hvncex⟩
  · show overallOf (weightedScoreD md cd pd) = _
    unfold overallOf weightedScoreD
    rw [jsRound_weighted_triple (marketOpportunityScore md) hmo.2
      (competitionScoreOfCount cd.competitors.length) (hco.2.trans (by norm_num))
      (entryFeasibilityOf cd pd) hef.2]
    rfl
  · rw [hv]
    unfold verdictOf
    split_ifs with hc7 hc4
    · simpa using h7.mp hc7
    · simp only [reduceCtorEq, false_iff]
      exact fun hcon => hc7 (h7.mpr hcon)
    · simp only [reduceCtorEq, false_iff]
      exact fun hcon => hc7 (h7.mpr hcon)
  · rw [hv]
    unfold verdictOf
    split_ifs with hc7 hc4
    · simp only [reduceCtorEq, false_iff]
      intro hcon
      exact absurd (h7.mp hc7) (by linarith [hcon.2])
    · simp only [true_iff]
      exact ⟨h4.mp hc4, lt_of_not_le (fun hcon => hc7 (h7.mpr hcon))⟩
    · simp only [reduceCtorEq, false_iff]
      exact fun hcon => hc4 (h4.mpr hcon.1)
  · rw [hv]
    unfold verdictOf
    split_ifs with hc7 hc4
    · simp only [reduceCtorEq, false_iff]
      intro hcon
      exact absurd (h7.mp hc7) (by linarith)
    · simp only [reduceCtorEq, false_iff]
      intro hcon
      exact absurd (h4.mp hc4) (by linarith)
    · simp only [true_iff]
      exact lt_of_not_le (fun hcon => hc4 (h4.mpr hcon))
  · show (divRound
      (Dyadic.jsRoundN ((weightedScoreD mdCex cdCex pdCex).mul (Dyadic.ofNat 10))) 10).toRat = 4
    rw [weightedScoreD_cex_eq, overall_cex_eq]
    show ((4503599627370496 : ℕ) : ℚ) / 2 ^ (50 : ℕ) = 4
    norm_num

/-- Witness for the amended C1 at the boundary input. -/
theorem calculateMarketScore_overall_verdict_witness :
    (calculateMarketScore mdCex cdCex pdCex).overall =
      (divRound (4 * (calculateMarketScore mdCex cdCex pdCex).marketOpportunity
        + 3 * (calculateMarketScore mdCex cdCex pdCex).competition
        + 3 * (calculateMarketScore mdCex cdCex pdCex).entryFeasibility) 10).toRat
    ∧ ((calculateMarketScore mdCex cdCex pdCex).verdict = Verdict.NO ↔
        (weightedScoreD mdCex cdCex pdCex).toRat < 4) :=
  ⟨(calculateMarketScore_overall_verdict mdCex cdCex pdCex
      (by intro n hn; simp [pdCex] at hn; omega)).1,
   (calculateMarketScore_overall_verdict mdCex cdCex pdCex
      (by intro n hn; simp [pdCex] at hn; omega)).2.2.2.1⟩

/-- C2: `calculateMarketScore` is pure and deterministic (equal inputs give an
equal `ScoreBreakdown`; in this embedding the function is literally a pure
Lean function), and for every input whose `painLevel` lies in the range the
pain analyzer can produce (`≤ 10`), the returned `overall` lies in `[0,10]`
and the three sub-scores are integers in `[0,10]` (integrality is captured by
their `ℕ` type; the bounds are proved here). -/
theorem calculateMarketScore_pure_bounded (md md' : MarketSizeResult) (cd cd' : CompetitorData)
    (pd pd' : PainResult) (hmd : md = md') (hcd : cd = cd') (hpd : pd = pd')
    (hpain : ∀ n, pd.painLevel = some n → n ≤ 10) :
    calculateMarketScore md cd pd = calculateMarketScore md' cd' pd'
    ∧ 0 ≤ (calculateMarketScore md cd pd).overall
    ∧ (calculateMarketScore md cd pd).overall ≤ 10
    ∧ (calculateMarketScore md cd pd).marketOpportunity ≤ 10
    ∧ (calculateMarketScore md cd pd).competition ≤ 10
    ∧ (calculateMarketScore md cd pd).entryFeasibility ≤ 10 := by
  subst hmd; subst hcd; subst hpd
  have hmo := marketOpportunityScore_bounds md
  have hco := competitionScoreOfCount_bounds cd.competitors.length
  have hef := entryFeasibilityOf_bounds cd pd hpain
  refine ⟨rfl, Dyadic.toRat_nonneg _, ?_, hmo.2, hco.2.trans (by norm_num), hef.2⟩
  show overallOf (weightedScoreD md cd pd) ≤ 10
  unfold overallOf weightedScoreD
  rw [jsRound_weighted_triple (marketOpportunityScore md) hmo.2
    (competitionScoreOfCount cd.competitors.length) (hco.2.trans (by norm_num))
    (entryFeasibilityOf cd pd) hef.2]
  exact Dyadic.toRat_le_of_num_le _ 10 (divRound_ten_le _ (by omega))

/-- Witness for C2 at a concrete input. -/
theorem calculateMarketScore_pure_bounded_witness :
    calculateMarketScore mdUnknown ⟨[], none⟩ pdDefault =
      calculateMarketScore mdUnknown ⟨[], none⟩ pdDefault
    ∧ 0 ≤ (calculateMarketScore mdUnknown ⟨[], none⟩ pdDefault).overall
    ∧ (calculateMarketScore mdUnknown ⟨[], none⟩ pdDefault).overall ≤ 10
    ∧ (calculateMarketScore mdUnknown ⟨[], none⟩ pdDefault).marketOpportunity ≤ 10
    ∧ (calculateMarketScore mdUnknown ⟨[], none⟩ pdDefault).competition ≤ 10
    ∧ (calculateMarketScore mdUnknown ⟨[], none⟩ pdDefault).entryFeasibility ≤ 10 :=
  calculateMarketScore_pure_bounded mdUnknown mdUnknown ⟨[], none⟩ ⟨[], none⟩ pdDefault pdDefault
    rfl rfl rfl (by intro n hn; simp [pdDefault] at hn; omega)

/-- C3: the competition sub-score is the non-monotonic step function of the
competitor count: 0 competitors give 3, 1-2 give 5, 3-5 give 8, 6-10 give 6,
more than 10 give 3; in particular count 4 yields 8, count 0 yields 3 and
count 15 yields 3. -/
theorem calculateMarketScore_competition_step (md : MarketSizeResult) (cd : CompetitorData)
    (pd : PainResult) :
    (cd.competitors.length = 0 → (calculateMarketScore md cd pd).competition = 3)
    ∧ (1 ≤ cd.competitors.length → cd.competitors.length ≤ 2 →
        (calculateMarketScore md cd pd).competition = 5)
    ∧ (3 ≤ cd.competitors.length → cd.competitors.length ≤ 5 →
        (calculateMarketScore md cd pd).competition = 8)
    ∧ (6 ≤ cd.competitors.length → cd.competitors.length ≤ 10 →
        (calculateMarketScore md cd pd).competition = 6)
    ∧ (10 < cd.competitors.length → (calculateMarketScore md cd pd).competition = 3)
    ∧ (calculateMarketScore mdUnknown ⟨List.replicate 4 compA, none⟩ pdDefault).competition = 8
    ∧ (calculateMarketScore mdUnknown ⟨[], none⟩ pdDefault).competition = 3
    ∧ (calculateMarketScore mdUnknown ⟨List.replicate 15 compA, none⟩ pdDefault).competition = 3
    := by
  have hc : (calculateMarketScore md cd pd).competition =
      competitionScoreOfCount cd.competitors.length := rfl
  refine ⟨?_, ?_, ?_, ?_, ?_, by decide, by decide, by decide⟩ <;>
    (intros; rw [hc]; unfold competitionScoreOfCount; split_ifs <;> omega)

/-- Witness for C3 at a concrete input (2 competitors land in the 1-2 band). -/
theorem calculateMarketScore_competition_step_witness :
    (calculateMarketScore mdUnknown ⟨List.replicate 2 compA, none⟩ pdDefault).competition = 5 :=
  (calculateMarketScore_competition_step mdUnknown ⟨List.replicate 2 compA, none⟩ pdDefault).2.1
    (by decide) (by decide)

/-- Embeds validator.js `validateIdeaDetailed` lines 417-424: the scores are
computed as `calculateMarketScore(marketData, competitors, painData)`, where
`competitors` is the plain array returned by `findCompetitors` (it never
carries a `marketConcentration` property, hence `none` here), and the
`competitorQuality` result is in scope but not passed to the scorer. -/
def validateIdeaDetailedScores (md : MarketSizeResult) (competitors : List Competitor)
    (pd : PainResult) (competitorQuality : QualityResult) : ScoreBreakdown :=
  calculateMarketScore md ⟨competitors, none⟩ pd

/-- C9: in the `validateIdeaDetailed` pipeline the competitor argument never
carries a `marketConcentration` field, so the "Highly concentrated" (-3) and
"Fragmented" (+2) adjustments are never applied: `entryFeasibility` always
equals `painData.painLevel` (default 5 when absent or zero), and the
concentration computed by `analyzeCompetitorQuality` has no effect on any of
the scores. -/
theorem validateIdeaDetailedScores_entryFeasibility (md : MarketSizeResult)
    (competitors : List Competitor) (pd : PainResult) (q : QualityResult) :
    (validateIdeaDetailedScores md competitors pd q).entryFeasibility =
      (match pd.painLevel with
       | some (n + 1) => n + 1
       | _ => 5)
    ∧ ∀ q' : QualityResult,
        validateIdeaDetailedScores md competitors pd q = validateIdeaDetailedScores md competitors pd q' := by
  constructor
  · have he : (validateIdeaDetailedScores md competitors pd q).entryFeasibility =
        entryFeasibilityOf ⟨competitors, none⟩ pd := rfl
    rw [he]
    unfold entryFeasibilityOf
    simp only [show ((⟨competitors, none⟩ : CompetitorData).marketConcentration = some "Highly concentrated") = False by simp,
      show ((⟨competitors, none⟩ : CompetitorData).marketConcentration = some "Fragmented") = False by simp,
      if_false]
    rcases pd.painLevel with _ | (_ | n) <;> simp [painBase]
  · intro q'
    rfl

/-! ### parseMarketValue theorems (C4) -/

theorem marketScan_eq_none (cs : List Char) (h : '$' ∉ cs) : marketScan cs = none := by
  induction cs with
  | nil => rfl
  | cons c rest ih =>
    simp only [List.mem_cons, not_or] at h
    obtain ⟨h1, h2⟩ := h
    simp only [marketScan]
    rw [if_neg (fun e => h1 e.symm)]
    exact ih h2

theorem parseFloatQ_digits (ds : List Char) (hne : ds ≠ [])
    (h : ∀ c ∈ ds, c.isDigit = true) :
    parseFloatQ ds = some ((digitsValN ds : ℚ)) := by
  obtain ⟨d, tl, rfl⟩ : ∃ d tl, ds = d :: tl := by
    cases ds with
    | nil => exact absurd rfl hne
    | cons d tl => exact ⟨d, tl, rfl⟩
  have hd := h d (List.mem_cons_self d tl)
  have hdrop : (d :: tl).dropWhile jsWhitespace = d :: tl := by
    simp [List.dropWhile_cons, digit_not_ws d hd]
  have hd1 : d ≠ '-' := by intro e; rw [e] at hd; exact absurd hd (by decide)
  have hd2 : d ≠ '+' := by intro e; rw [e] at hd; exact absurd hd (by decide)
  have hun : parseUnsignedQ (d :: tl) = some ((digitsValN (d :: tl) : ℚ)) := by
    unfold parseUnsignedQ
    rw [List.takeWhile_eq_self_iff.mpr (by intro x hx; exact h x hx),
      List.dropWhile_eq_nil_iff.mpr (by intro x hx; exact h x hx)]
    simp
  unfold parseFloatQ
  rw [hdrop]
  split
  · next rest heq =>
    injection heq with e _
    exact absurd e hd1
  · next rest heq =>
    injection heq with e _
    exact absurd e hd2
  · exact hun

theorem unitChar_facts (u : Char) (hu : u ∈ ['B', 'b', 'M', 'm', 'T', 't']) :
    isDigitOrDot u = false ∧ jsWhitespace u = false ∧ isUnitChar u = true := by
  simp only [List.mem_cons, List.not_mem_nil, or_false] at hu
  rcases hu with rfl | rfl | rfl | rfl | rfl | rfl <;> exact ⟨by decide, by decide, by decide⟩

theorem marketMatchAfterDollar_digits (ds : List Char) (hne : ds ≠ [])
    (hdig : ∀ c ∈ ds, c.isDigit = true) (u : Char) (hu : u ∈ ['B', 'b', 'M', 'm', 'T', 't']) :
    marketMatchAfterDollar (ds ++ [u]) = some (ds, u) := by
  obtain ⟨hu1, hu2, hu3⟩ := unitChar_facts u hu
  have hdd : ∀ c ∈ ds, isDigitOrDot c = true := by
    intro c hc; simp [isDigitOrDot, hdig c hc]
  unfold marketMatchAfterDollar
  rw [show ds ++ [u] = ds ++ u :: [] from rfl,
    takeWhile_append_cons isDigitOrDot ds hdd u hu1 [],
    dropWhile_append_cons isDigitOrDot ds hdd u hu1 []]
  have hne' : ds.isEmpty = false := by
    cases ds with
    | nil => exact absurd rfl hne
    | cons a b => rfl
  rw [hne']
  simp [List.dropWhile_cons, hu2, hu3]

/-- C4: `parseMarketValue` parses `"$<number><B|M|T>"` case-insensitively and
returns the number normalized to millions of USD (T multiplies by 1,000,000,
B by 1,000, M by 1); it returns 0 for a string without a `$` (hence without
any match); in particular `"$1.5B"` gives 1500, `"$2T"` gives 2,000,000 and
`"garbage"` gives 0. -/
theorem parseMarketValue_spec :
    (∀ s : String, '$' ∉ s.data → parseMarketValue s = some 0)
    ∧ (∀ ds : List Char, ds ≠ [] → (∀ c ∈ ds, c.isDigit = true) →
        ∀ u : Char, u ∈ ['B', 'b', 'M', 'm', 'T', 't'] →
        parseMarketValue (String.mk ('$' :: (ds ++ [u]))) =
          some ((digitsValN ds : ℚ) *
            (if u = 'T' ∨ u = 't' then 1000000
             else if u = 'B' ∨ u = 'b' then 1000
             else 1)))
    ∧ parseMarketValue "$1.5B" = some 1500
    ∧ parseMarketValue "$2T" = some 2000000
    ∧ parseMarketValue "garbage" = some 0 := by
  refine ⟨?_, ?_, ?_, ?_, ?_⟩
  · intro s h
    unfold parseMarketValue
    rw [marketScan_eq_none s.data h]
  · intro ds hne hdig u hu
    have hscan : marketScan ('$' :: (ds ++ [u])) =
        (match marketMatchAfterDollar (ds ++ [u]) with
         | some r => some r
         | none => marketScan (ds ++ [u])) := rfl
    unfold parseMarketValue
    rw [show (String.mk ('$' :: (ds ++ [u]))).data = '$' :: (ds ++ [u]) from rfl,
      hscan, marketMatchAfterDollar_digits ds hne hdig u hu]
    show (match parseFloatQ ds with
      | none => none
      | some value =>
        if u.toLower == 't' then some (value * 1000000)
        else if u.toLower == 'b' then some (value * 1000)
        else some value) =
      some ((digitsValN ds : ℚ) *
        (if u = 'T' ∨ u = 't' then 1000000
         else if u = 'B' ∨ u = 'b' then 1000
         else 1))
    rw [parseFloatQ_digits ds hne hdig]
    show (if u.toLower == 't' then some ((digitsValN ds : ℚ) * 1000000)
      else if u.toLower == 'b' then some ((digitsValN ds : ℚ) * 1000)
      else some ((digitsValN ds : ℚ))) =
      some ((digitsValN ds : ℚ) *
        (if u = 'T' ∨ u = 't' then 1000000
         else if u = 'B' ∨ u = 'b' then 1000
         else 1))
    simp only [List.mem_cons, List.not_mem_nil, or_false] at hu
    rcases hu with rfl | rfl | rfl | rfl | rfl | rfl
    · rw [if_neg (by decide : ¬(('B'.toLower == 't') = true)),
        if_pos (by decide : (('B'.toLower == 'b') = true)),
        if_neg (by decide : ¬('B' = 'T' ∨ 'B' = 't')),
        if_pos (by decide : ('B' = 'B' ∨ 'B' = 'b'))]
    · rw [if_neg (by decide : ¬(('b'.toLower == 't') = true)),
        if_pos (by decide : (('b'.toLower == 'b') = true)),
        if_neg (by decide : ¬('b' = 'T' ∨ 'b' = 't')),
        if_pos (by decide : ('b' = 'B' ∨ 'b' = 'b'))]
    · rw [if_neg (by decide : ¬(('M'.toLower == 't') = true)),
        if_neg (by decide : ¬(('M'.toLower == 'b') = true)),
        if_neg (by decide : ¬('M' = 'T' ∨ 'M' = 't')),
        if_neg (by decide : ¬('M' = 'B' ∨ 'M' = 'b')), mul_one]
    · rw [if_neg (by decide : ¬(('m'.toLower == 't') = true)),
        if_neg (by decide : ¬(('m'.toLower == 'b') = true)),
        if_neg (by decide : ¬('m' = 'T' ∨ 'm' = 't')),
        if_neg (by decide : ¬('m' = 'B' ∨ 'm' = 'b')), mul_one]
    · rw [if_pos (by decide : (('T'.toLower == 't') = true)),
        if_pos (by decide : ('T' = 'T' ∨ 'T' = 't'))]
    · rw [if_pos (by decide : (('t'.toLower == 't') = true)),
        if_pos (by decide : ('t' = 'T' ∨ 't' = 't'))]
  · rw [show parseMarketValue "$1.5B" =
      some (((digitsValN ['1'] : ℚ) + (digitsValN ['5'] : ℚ) / (10 ^ (1 : ℕ))) * 1000) from rfl]
    rw [show digitsValN ['1'] = 1 from rfl, show digitsValN ['5'] = 5 from rfl]
    norm_num
  · rw [show parseMarketValue "$2T" = some ((digitsValN ['2'] : ℚ) * 1000000) from rfl]
    rw [show digitsValN ['2'] = 2 from rfl]
    norm_num
  · rfl

/-- Witness for C4: the hypothesis-bearing parts applied at concrete inputs
(`"x"` has no dollar sign; `"$30m"` exercises the general digit form). -/
theorem parseMarketValue_spec_witness :
    parseMarketValue "x" = some 0
    ∧ parseMarketValue (String.mk ('$' :: (['3', '0'] ++ ['m']))) =
        some ((digitsValN ['3', '0'] : ℚ) *
          (if 'm' = 'T' ∨ 'm' = 't' then 1000000
           else if 'm' = 'B' ∨ 'm' = 'b' then 1000
           else 1)) :=
  ⟨parseMarketValue_spec.1 "x" (by decide),
   parseMarketValue_spec.2.1 ['3', '0'] (by decide) (by decide) 'm' (by decide)⟩

/-! ### makeDecision (validator.js lines 228-269), offline path (C7) -/

structure PivotExample where
  company : String
  story : String
deriving DecidableEq

structure Decision where
  verdict : String
  reasons : List String
  alternatives : List String
  pivotExamples : List PivotExample
deriving DecidableEq

/-- Lines 233-266: the deterministic decision returned when `getOpenAIClient`
throws its missing-API-key error (`hasCompetitors = competitors.length > 3`). -/
def makeDecisionOffline (competitors : List Competitor) : Decision :=
  if 3 < competitors.length then
    { verdict := "NO"
      reasons := ["Market is saturated with existing solutions",
        "Difficult to differentiate from competitors",
        "High customer acquisition cost likely"]
      alternatives := ["Focus on one specific underserved segment like freelancers or students",
        "Build an integration for existing tools instead of standalone product",
        "Target a specific industry vertical with unique requirements"]
      pivotExamples := [⟨"Segment", "Pivoted from classroom tool to customer data platform"⟩,
        ⟨"Shopify", "Started as snowboard shop, became e-commerce platform"⟩,
        ⟨"YouTube", "Dating site that pivoted to video sharing"⟩] }
  else
    { verdict := "MAYBE"
      reasons := ["Market may have room for innovation",
        "Fewer competitors could mean opportunity",
        "Need more research to validate demand"]
      alternatives := ["Start with a landing page and get 100 email signups first",
        "Interview 20 potential customers to validate the problem exists",
        "Build a simple MVP and test with 10 beta users"]
      pivotExamples := [] }

/-- validator.js `makeDecision`.  `hasOpenAIKey` is whether
`config.getOpenAIKey()` returns a key; `llmPath` abstracts the outcome of the
credentialed LLM path (lines 271-389), which is only reached when a key is
configured.  `idea` and `roastMode` feed only that path. -/
def makeDecision (hasOpenAIKey : Bool) (llmPath : Decision) (idea : String)
    (competitors : List Competitor) (roastMode : Bool) : Decision :=
  if hasOpenAIKey then llmPath else makeDecisionOffline competitors

/-- Placeholder decision used to instantiate the abstracted LLM path. -/
def emptyDecision : Decision := ⟨"", [], [], []⟩

/-- C7: with no OpenAI credential, `makeDecision` is deterministic: verdict NO
exactly when the competitor list has length `> 3`, MAYBE otherwise, always
with exactly 3 canned reasons and 3 canned alternatives, independent of the
idea text, roast mode, and of everything except which side of the
3-competitor threshold the list falls on; with 6 competitors the verdict is
NO. -/
theorem makeDecision_offline_spec (llm : Decision) (idea : String)
    (competitors : List Competitor) (roast : Bool) :
    ((makeDecision false llm idea competitors roast).verdict = "NO" ↔ 3 < competitors.length)
    ∧ ((makeDecision false llm idea competitors roast).verdict = "MAYBE" ↔ competitors.length ≤ 3)
    ∧ (makeDecision false llm idea competitors roast).reasons.length = 3
    ∧ (makeDecision false llm idea competitors roast).alternatives.length = 3
    ∧ (∀ (llm' : Decision) (idea' : String) (roast' : Bool),
        makeDecision false llm idea competitors roast = makeDecision false llm' idea' competitors roast')
    ∧ (∀ competitors' : List Competitor, (3 < competitors.length ↔ 3 < competitors'.length) →
        makeDecision false llm idea competitors roast = makeDecision false llm idea competitors' roast)
    ∧ (makeDecision false llm "AI-powered todo app for developers"
        (List.replicate 6 compA) roast).verdict = "NO" := by
  have hd : makeDecision false llm idea competitors roast = makeDecisionOffline competitors := rfl
  by_cases h : 3 < competitors.length
  · have hrec : makeDecisionOffline competitors = makeDecisionOffline (List.replicate 4 compA) := by
      unfold makeDecisionOffline
      rw [if_pos h, if_pos (by decide)]
    refine ⟨?_, ?_, ?_, ?_, ?_, ?_, rfl⟩
    · rw [hd, hrec]
      exact ⟨fun _ => h, fun _ => rfl⟩
    · rw [hd, hrec]
      exact ⟨fun hv => absurd hv (by decide), fun hl => absurd h (by omega)⟩
    · rw [hd, hrec]; rfl
    · rw [hd, hrec]; rfl
    · intro llm' idea' roast'; rfl
    · intro competitors' hiff
      show makeDecisionOffline competitors = makeDecisionOffline competitors'
      unfold makeDecisionOffline
      rw [if_pos h, if_pos (hiff.mp h)]
  · have hrec : makeDecisionOffline competitors = makeDecisionOffline [] := by
      unfold makeDecisionOffline
      rw [if_neg h, if_neg (by decide)]
    refine ⟨?_, ?_, ?_, ?_, ?_, ?_, rfl⟩
    · rw [hd, hrec]
      exact ⟨fun hv => absurd hv (by decide), fun hl => absurd hl (by omega)⟩
    · rw [hd, hrec]
      exact ⟨fun _ => by omega, fun _ => rfl⟩
    · rw [hd, hrec]; rfl
    · rw [hd, hrec]; rfl
    · intro llm' idea' roast'; rfl
    · intro competitors' hiff
      show makeDecisionOffline competitors = makeDecisionOffline competitors'
      unfold makeDecisionOffline
      rw [if_neg h, if_neg (fun hc => h (hiff.mpr hc))]

/-- Witness for C7: the 6-competitor offline scenario returns NO. -/
theorem makeDecision_offline_spec_witness :
    (makeDecision false emptyDecision "AI-powered todo app for developers"
      (List.replicate 6 compA) false).verdict = "NO" :=
  (makeDecision_offline_spec emptyDecision "AI-powered todo app for developers"
    (List.replicate 6 compA) false).1.mpr (by decide)

/-! ### researchCompetitorsWithPerplexity, detail round (C5)

Embeds phase 2 of `researchCompetitorsWithPerplexity` (the competitor server
module, lines 381-454): the top-3 names are researched concurrently; each
fan-out branch resolves to `null` when its fetch fails or returns non-2xx,
and otherwise to the record `parseCompetitorDetails` builds (that parser is
total: it always returns a record). -/

/-- The record built by `parseCompetitorDetails` (lines 513-598). -/
structure CompetitorDetail where
  name : String
  description : String
  pricing : String
  strengths : List String
  weaknesses : List String
  targetMarket : String
  features : List String
  recentUpdates : List String
deriving DecidableEq

def researchFailureMsg : String :=
  "Failed to extract competitor information from Perplexity response"

/-- Phase 2 of `researchCompetitorsWithPerplexity`: `detailOutcome name` is
the settled value of that competitor's detail branch (`none` = the query
failed and the branch resolved to `null`; `some d` = the parsed record).
`null` results are filtered out; if no competitor survives, the operation
throws the research-failure error. -/
def researchDetailRound (detailOutcome : String → Option CompetitorDetail)
    (competitorNames : List String) : Except String (List CompetitorDetail × List String) :=
  if (((competitorNames.take 3).map detailOutcome).filterMap id).isEmpty then
    Except.error researchFailureMsg
  else
    Except.ok ((((competitorNames.take 3).map detailOutcome).filterMap id),
      (competitorNames.drop 3).take 3)

theorem researchDetailRound_key (f : String → Option CompetitorDetail) (l : List String) :
    (l.map f).filterMap id = l.filterMap f := by
  rw [List.filterMap_map]
  rfl

/-- C5: a single detail-query failure yields null for that competitor and is
filtered out without aborting the batch (any surviving competitor appears in
a successful result), and when zero competitors survive, the operation
raises the research-failure error instead of returning an empty success. -/
theorem researchDetailRound_spec (f : String → Option CompetitorDetail) (names : List String) :
    (∀ name c, name ∈ names.take 3 → f name = some c →
       ∃ res : List CompetitorDetail × List String,
         researchDetailRound f names = Except.ok res ∧ c ∈ res.1)
    ∧ ((∀ name ∈ names.take 3, f name = none) →
        researchDetailRound f names = Except.error researchFailureMsg)
    ∧ (∀ res, researchDetailRound f names = Except.ok res → res.1 ≠ []) := by
  refine ⟨?_, ?_, ?_⟩
  · intro name c hn hf
    have hmem : c ∈ (names.take 3).filterMap f := List.mem_filterMap.mpr ⟨name, hn, hf⟩
    have hcond : (((names.take 3).map f).filterMap id).isEmpty = false := by
      rw [researchDetailRound_key]
      rcases hmm : (names.take 3).filterMap f with _ | ⟨a, tl⟩
      · rw [hmm] at hmem; exact absurd hmem (List.not_mem_nil c)
      · rfl
    refine ⟨((((names.take 3).map f).filterMap id), (names.drop 3).take 3), ?_, ?_⟩
    · unfold researchDetailRound
      rw [if_neg (show ¬((((names.take 3).map f).filterMap id).isEmpty = true) by
        rw [hcond]; decide)]
    · show c ∈ ((names.take 3).map f).filterMap id
      rw [researchDetailRound_key]
      exact hmem
  · intro hall
    have hnil : (names.take 3).filterMap f = [] := by
      rw [List.filterMap_eq_nil_iff]
      exact hall
    unfold researchDetailRound
    rw [if_pos (by rw [researchDetailRound_key, hnil]; rfl)]
  · intro res hres
    unfold researchDetailRound at hres
    by_cases hcond : (((names.take 3).map f).filterMap id).isEmpty = true
    · rw [if_pos hcond] at hres
      exact absurd hres (by simp)
    · rw [if_neg hcond] at hres
      cases hres
      simpa [List.isEmpty_iff] using hcond

/-- Witness for C5: all three detail branches fail, so the whole operation
raises the research-failure error. -/
theorem researchDetailRound_spec_witness :
    researchDetailRound (fun _ => (none : Option CompetitorDetail)) ["A", "B", "C", "D"] =
      Except.error researchFailureMsg :=
  (researchDetailRound_spec (fun _ => none) ["A", "B", "C", "D"]).2.1 (fun _ _ => rfl)

/-! ### Cache model

The source keeps module-level JS `Map`s (`competitorCache` in validator.js,
`marketCache` in market-analyzer.js).  A map is modeled as an association
list where `set` prepends and `get` takes the most recent binding — the same
observable behavior as `Map.get`/`Map.set`.  The single `marketCache` map is
split per key prefix (`market:` vs `pain:`), which is observationally
identical because the two call sites use disjoint key sets. -/

structure CacheEntry (α : Type) where
  data : α
  timestamp : ℤ
deriving DecidableEq

abbrev Cache (α : Type) := List (String × CacheEntry α)

def cacheGet {α : Type} (m : Cache α) (k : String) : Option (CacheEntry α) :=
  (m.find? (fun p => p.1 == k)).map Prod.snd

def cacheSet {α : Type} (m : Cache α) (k : String) (e : CacheEntry α) : Cache α :=
  (k, e) :: m

/-! ### findCompetitors (validator.js lines 18-100) and claim C10 -/

/-- `replace(/\s+/g, ' ')`: collapse every whitespace run to one space.  The
boolean argument records whether the previous character was part of a run. -/
def collapseSpacesAux : Bool → List Char → List Char
  | _, [] => []
  | prev, c :: rest =>
    if jsWhitespace c then
      if prev then collapseSpacesAux true rest
      else ' ' :: collapseSpacesAux true rest
    else c :: collapseSpacesAux false rest

def collapseSpaces (cs : List Char) : List Char := collapseSpacesAux false cs

/-- Line 28: `idea.toLowerCase().trim().replace(/\s+/g, ' ')`. -/
def findCompetitorsKey (idea : String) : String :=
  ⟨collapseSpaces (jsTrim (toLowerList idea.data))⟩

/-- Model of JS `String.prototype.includes` over character lists. -/
def jsIncludes (needle : List Char) : List Char → Bool
  | [] => needle.isEmpty
  | c :: rest => List.isPrefixOf needle (c :: rest) || jsIncludes needle rest

/-- JS `split` on a single-character class: every separator splits, empty
pieces included. -/
def splitOnPred (p : Char → Bool) (cs : List Char) : List (List Char) :=
  cs.foldr
    (fun c acc =>
      if p c then [] :: acc
      else
        match acc with
        | [] => [[c]]
        | g :: gs => (c :: g) :: gs)
    [[]]

/-- `replace(/^\d+\.\s*/, '')`. -/
def stripLeadingNumber (cs : List Char) : List Char :=
  if (cs.takeWhile Char.isDigit).isEmpty then cs
  else
    match cs.dropWhile Char.isDigit with
    | '.' :: r => r.dropWhile jsWhitespace
    | _ => cs

/-- `replace(/\*\*/g, '')`: remove non-overlapping `**` pairs left to right. -/
def removeDoubleStars : List Char → List Char
  | '*' :: '*' :: rest => removeDoubleStars rest
  | c :: rest => c :: removeDoubleStars rest
  | [] => []

/-- `replace(/\[\d+\]/g, '')`: drop `[digits]` reference markers.  The fuel
is the input length; every step consumes at least one character. -/
def removeRefMarkersAux : ℕ → List Char → List Char
  | 0, cs => cs
  | _ + 1, [] => []
  | fuel + 1, '[' :: rest =>
    if (rest.takeWhile Char.isDigit).isEmpty then '[' :: removeRefMarkersAux fuel rest
    else
      match rest.dropWhile Char.isDigit with
      | ']' :: r2 => removeRefMarkersAux fuel r2
      | _ => '[' :: removeRefMarkersAux fuel rest
  | fuel + 1, c :: rest => c :: removeRefMarkersAux fuel rest

def removeRefMarkers (cs : List Char) : List Char := removeRefMarkersAux cs.length cs

/-- Lines 68-83: one line of the discovery response becomes a competitor when
the cleaned text is long enough, is not a lead-in, splits on `[-–:]` into at
least two parts, and has a short name part. -/
def findCompetitorsLine (line : List Char) : Option Competitor :=
  let cleaned := jsTrim (removeRefMarkers (removeDoubleStars (stripLeadingNumber line)))
  if 10 < cleaned.length
      ∧ ¬(jsIncludes "here are".data (toLowerList cleaned) = true)
      ∧ ¬(jsIncludes "list of".data (toLowerList cleaned) = true) then
    match splitOnPred (fun c => c == '-' || c == '–' || c == ':') cleaned with
    | p0 :: p1 :: rest =>
      if (jsTrim p0).length < 50 then
        some ⟨⟨jsTrim p0⟩, ⟨jsTrim (List.intercalate ['-'] (p1 :: rest))⟩⟩
      else none
    | _ => none
  else none

/-- Lines 65-85: parse the discovery response and keep the first five. -/
def findCompetitorsParse (content : String) : List Competitor :=
  ((splitOnPred (fun c => c == '\n') content.data).filterMap findCompetitorsLine).take 5

/-- Lines 21-26: the no-credential placeholder list. -/
def placeholderCompetitors : List Competitor :=
  [⟨"Existing Solution A", "Current market leader"⟩,
   ⟨"Existing Solution B", "Popular alternative"⟩]

/-- Lines 35-99: the fetch phase of `findCompetitors`.  `fetchOutcome` models
the network round (`none` = network error, non-2xx response, or any throw
inside the `try`; the `catch` then returns the fallback without caching).
The last component counts network calls. -/
def findCompetitorsFetch (fetchOutcome : Option String) (idea : String)
    (cache : Cache (List Competitor)) (now : ℤ) :
    List Competitor × Cache (List Competitor) × ℕ :=
  match fetchOutcome with
  | none => ([⟨"Unknown Competitor", "Failed to load competitors"⟩], cache, 1)
  | some content =>
    (findCompetitorsParse content,
     cacheSet cache (findCompetitorsKey idea) ⟨findCompetitorsParse content, now⟩, 1)

/-- validator.js `findCompetitors`: placeholders without a credential, then a
24-hour cache, then the fetch phase. -/
def findCompetitors (hasPerplexityKey : Bool) (fetchOutcome : Option String) (idea : String)
    (cache : Cache (List Competitor)) (now : ℤ) :
    List Competitor × Cache (List Competitor) × ℕ :=
  if ¬hasPerplexityKey then (placeholderCompetitors, cache, 0)
  else
    match cacheGet cache (findCompetitorsKey idea) with
    | some e =>
      if now - 24 * 60 * 60 * 1000 < e.timestamp then (e.data, cache, 0)
      else findCompetitorsFetch fetchOutcome idea cache now
    | none => findCompetitorsFetch fetchOutcome idea cache now

/-- C10: with a Perplexity credential configured and no fresh cache entry, a
failed discovery query does not propagate: `findCompetitors` returns the
one-element fallback list, so downstream logic sees a competitor count
of 1 (and the failed round still counted one network call). -/
theorem findCompetitors_discovery_failure (idea : String) (cache : Cache (List Competitor))
    (now : ℤ)
    (hstale : ∀ e, cacheGet cache (findCompetitorsKey idea) = some e →
      e.timestamp ≤ now - 24 * 60 * 60 * 1000) :
    (findCompetitors true none idea cache now).1 =
      [⟨"Unknown Competitor", "Failed to load competitors"⟩]
    ∧ (findCompetitors true none idea cache now).1.length = 1
    ∧ (findCompetitors true none idea cache now).2.2 = 1 := by
  have hred : findCompetitors true none idea cache now =
      findCompetitorsFetch none idea cache now := by
    unfold findCompetitors
    rcases hc : cacheGet cache (findCompetitorsKey idea) with _ | e
    · rfl
    · have hts := hstale e hc
      have hmatch : (match some e with
          | some e =>
            if now - 24 * 60 * 60 * 1000 < e.timestamp then (e.data, cache, (0 : ℕ))
            else findCompetitorsFetch none idea cache now
          | none => findCompetitorsFetch none idea cache now) =
          findCompetitorsFetch none idea cache now := by
        show (if now - 24 * 60 * 60 * 1000 < e.timestamp then (e.data, cache, (0 : ℕ))
          else findCompetitorsFetch none idea cache now) =
          findCompetitorsFetch none idea cache now
        rw [if_neg (by omega : ¬(now - 24 * 60 * 60 * 1000 < e.timestamp))]
      rw [hmatch]
      rfl
  rw [hred]
  exact ⟨rfl, rfl, rfl⟩

/-- Witness for C10 on the empty cache. -/
theorem findCompetitors_discovery_failure_witness :
    (findCompetitors true none "test idea string" [] 0).1 =
      [⟨"Unknown Competitor", "Failed to load competitors"⟩]
    ∧ (findCompetitors true none "test idea string" [] 0).1.length = 1
    ∧ (findCompetitors true none "test idea string" [] 0).2.2 = 1 :=
  findCompetitors_discovery_failure "test idea string" [] 0 (fun _ h => nomatch h)

/-! ### MarketSignals analyzers (market-analyzer.js lines 7-217) and claim C6

Each analyzer takes:
* `parse` — the deterministic content-to-result block of its success path
  (market: lines 53-63; pain: lines 129-137; quality: lines 202-207), kept as
  a parameter because C6 concerns only cache/network behavior, which is
  independent of the extraction details;
* `hasKey` — whether `PERPLEXITY_API_KEY` is set;
* `fetchOutcome` — the network round (`none` = fetch error, non-2xx, or any
  throw in the `try`, all landing in the `catch`);
* for the cached analyzers, the cache and the current time.
The final `ℕ` counts network calls issued by the invocation (0 or 1). -/

/-- Line 8: `market:` + normalized idea. -/
def marketKey (idea : String) : String := "market:" ++ jsTrimS (jsToLower idea)

/-- Line 84: `pain:` + normalized idea. -/
def painKey (idea : String) : String := "pain:" ++ jsTrimS (jsToLower idea)

/-- Lines 15-80 of `analyzeMarketSize`: the part after the cache check.  Only
a successful fetch writes the cache; the `catch` returns the default without
caching. -/
def analyzeMarketSizeFetch (parse : String → MarketSizeResult) (hasKey : Bool)
    (fetchOutcome : Option String) (idea : String) (cache : Cache MarketSizeResult) (now : ℤ) :
    MarketSizeResult × Cache MarketSizeResult × ℕ :=
  if ¬hasKey then (mdUnknown, cache, 0)
  else
    match fetchOutcome with
    | none => (mdUnknown, cache, 1)
    | some content =>
      (parse content, cacheSet cache (marketKey idea) ⟨parse content, now⟩, 1)

/-- market-analyzer.js `analyzeMarketSize` (7-day freshness window). -/
def analyzeMarketSize (parse : String → MarketSizeResult) (hasKey : Bool)
    (fetchOutcome : Option String) (idea : String) (cache : Cache MarketSizeResult) (now : ℤ) :
    MarketSizeResult × Cache MarketSizeResult × ℕ :=
  match cacheGet cache (marketKey idea) with
  | some e =>
    if now - 7 * 24 * 60 * 60 * 1000 < e.timestamp then (e.data, cache, 0)
    else analyzeMarketSizeFetch parse hasKey fetchOutcome idea cache now
  | none => analyzeMarketSizeFetch parse hasKey fetchOutcome idea cache now

/-- Lines 83-153 of `analyzeCustomerPain`, after the cache check.
`competitors` only shapes the query text (line 102), hence is unused here. -/
def analyzeCustomerPainFetch (parse : String → PainResult) (hasKey : Bool)
    (fetchOutcome : Option String) (idea : String) (competitors : List Competitor)
    (cache : Cache PainResult) (now : ℤ) : PainResult × Cache PainResult × ℕ :=
  if ¬hasKey then (pdDefault, cache, 0)
  else
    match fetchOutcome with
    | none => (pdDefault, cache, 1)
    | some content =>
      (parse content, cacheSet cache (painKey idea) ⟨parse content, now⟩, 1)

/-- market-analyzer.js `analyzeCustomerPain` (3-day freshness window, keyed
by idea text only — independent of the competitor list). -/
def analyzeCustomerPain (parse : String → PainResult) (hasKey : Bool)
    (fetchOutcome : Option String) (idea : String) (competitors : List Competitor)
    (cache : Cache PainResult) (now : ℤ) : PainResult × Cache PainResult × ℕ :=
  match cacheGet cache (painKey idea) with
  | some e =>
    if now - 3 * 24 * 60 * 60 * 1000 < e.timestamp then (e.data, cache, 0)
    else analyzeCustomerPainFetch parse hasKey fetchOutcome idea competitors cache now
  | none => analyzeCustomerPainFetch parse hasKey fetchOutcome idea competitors cache now

/-- The neutral default of `analyzeCompetitorQuality`. -/
def qualityDefault : QualityResult := ⟨"Unknown", 5, "Unknown", none⟩

/-- market-analyzer.js `analyzeCompetitorQuality` (lines 156-217): it has no
cache at all — every invocation with a configured key and a nonempty
competitor list performs its own network call. -/
def analyzeCompetitorQuality (parse : String → QualityResult) (hasKey : Bool)
    (fetchOutcome : Option String) (competitors : List Competitor) : QualityResult × ℕ :=
  if competitors.isEmpty then (qualityDefault, 0)
  else if ¬hasKey then (qualityDefault, 0)
  else
    match fetchOutcome with
    | none => (qualityDefault, 1)
    | some content => (parse content, 1)

/-- Concrete stand-in for the quality extraction block (lines 202-207). -/
def qualityParseStub : String → QualityResult :=
  fun content => ⟨"Unknown", 5, "Unknown", some content⟩

/-- Concrete stand-in for the market extraction block (lines 53-63). -/
def marketParseStub : String → MarketSizeResult :=
  fun content => ⟨"$5B", "20%", "Unknown", "high", some content⟩

/-- Counterexample for C6: `analyzeCompetitorQuality` has no cache, so two
calls with the same nonempty competitor list and a configured key issue two
network calls, not at most one; and for `analyzeMarketSize` a failed first
fetch is not cached, so a second call in the window issues a second network
call. -/
theorem analyzeCompetitorQuality_two_network_calls :
    (analyzeCompetitorQuality qualityParseStub true (some "response") [compA]).2 = 1
    ∧ ¬((analyzeCompetitorQuality qualityParseStub true (some "response") [compA]).2
        + (analyzeCompetitorQuality qualityParseStub true (some "response") [compA]).2 ≤ 1)
    ∧ (analyzeMarketSize marketParseStub true none "some idea" [] 0).2.2
        + (analyzeMarketSize marketParseStub true none "some idea"
            (analyzeMarketSize marketParseStub true none "some idea" [] 0).2.1 1).2.2 = 2 := by
  refine ⟨rfl, by decide, rfl⟩

/-- C6 (amended): for `analyzeMarketSize` and `analyzeCustomerPain`, when the
first call misses the cache and its fetch succeeds, a second call with the
same idea text within the kind-specific freshness window (7 days for market,
3 days for pain; for pain with any competitor lists) issues no network call
and returns the identical cached result object, so the pair issues exactly
one network call; `analyzeCompetitorQuality` has no cache and issues one
network call on every invocation with a key and nonempty competitors. -/
theorem marketSignals_cache_idempotence :
    (∀ (parse : String → MarketSizeResult) (idea content : String)
       (cache : Cache MarketSizeResult) (t1 t2 : ℤ) (f2 : Option String),
       cacheGet cache (marketKey idea) = none →
       t1 ≤ t2 → t2 < t1 + 7 * 24 * 60 * 60 * 1000 →
       (analyzeMarketSize parse true (some content) idea cache t1).2.2 = 1
       ∧ analyzeMarketSize parse true f2 idea
           (analyzeMarketSize parse true (some content) idea cache t1).2.1 t2 =
         ((analyzeMarketSize parse true (some content) idea cache t1).1,
          (analyzeMarketSize parse true (some content) idea cache t1).2.1, 0))
    ∧ (∀ (parse : String → PainResult) (idea content : String)
         (comps1 comps2 : List Competitor)
         (cache : Cache PainResult) (t1 t2 : ℤ) (f2 : Option String),
       cacheGet cache (painKey idea) = none →
       t1 ≤ t2 → t2 < t1 + 3 * 24 * 60 * 60 * 1000 →
       (analyzeCustomerPain parse true (some content) idea comps1 cache t1).2.2 = 1
       ∧ analyzeCustomerPain parse true f2 idea comps2
           (analyzeCustomerPain parse true (some content) idea comps1 cache t1).2.1 t2 =
         ((analyzeCustomerPain parse true (some content) idea comps1 cache t1).1,
          (analyzeCustomerPain parse true (some content) idea comps1 cache t1).2.1, 0))
    ∧ (∀ (parse : String → QualityResult) (f : Option String) (c : Competitor)
         (cs : List Competitor),
       (analyzeCompetitorQuality parse true f (c :: cs)).2 = 1) := by
  refine ⟨?_, ?_, ?_⟩
  · intro parse idea content cache t1 t2 f2 hmiss hle hwin
    have h1 : analyzeMarketSize parse true (some content) idea cache t1 =
        (parse content, cacheSet cache (marketKey idea) ⟨parse content, t1⟩, 1) := by
      unfold analyzeMarketSize
      rw [hmiss]
      rfl
    have h2 : cacheGet (cacheSet cache (marketKey idea) ⟨parse content, t1⟩) (marketKey idea) =
        some ⟨parse content, t1⟩ := by
      unfold cacheGet cacheSet
      rw [List.find?_cons_of_pos _ (by simp)]
      rfl
    constructor
    · rw [h1]
    · rw [h1]
      unfold analyzeMarketSize
      rw [h2]
      show (if t2 - 7 * 24 * 60 * 60 * 1000 < t1
          then (parse content, cacheSet cache (marketKey idea) ⟨parse content, t1⟩, (0 : ℕ))
          else analyzeMarketSizeFetch parse true f2 idea
            (cacheSet cache (marketKey idea) ⟨parse content, t1⟩) t2) =
        (parse content, cacheSet cache (marketKey idea) ⟨parse content, t1⟩, 0)
      rw [if_pos (by omega : t2 - 7 * 24 * 60 * 60 * 1000 < t1)]
  · intro parse idea content comps1 comps2 cache t1 t2 f2 hmiss hle hwin
    have h1 : analyzeCustomerPain parse true (some content) idea comps1 cache t1 =
        (parse content, cacheSet cache (painKey idea) ⟨parse content, t1⟩, 1) := by
      unfold analyzeCustomerPain
      rw [hmiss]
      rfl
    have h2 : cacheGet (cacheSet cache (painKey idea) ⟨parse content, t1⟩) (painKey idea) =
        some ⟨parse content, t1⟩ := by
      unfold cacheGet cacheSet
      rw [List.find?_cons_of_pos _ (by simp)]
      rfl
    constructor
    · rw [h1]
    · rw [h1]
      unfold analyzeCustomerPain
      rw [h2]
      show (if t2 - 3 * 24 * 60 * 60 * 1000 < t1
          then (parse content, cacheSet cache (painKey idea) ⟨parse content, t1⟩, (0 : ℕ))
          else analyzeCustomerPainFetch parse true f2 idea comps2
            (cacheSet cache (painKey idea) ⟨parse content, t1⟩) t2) =
        (parse content, cacheSet cache (painKey idea) ⟨parse content, t1⟩, 0)
      rw [if_pos (by omega : t2 - 3 * 24 * 60 * 60 * 1000 < t1)]
  · intro parse f c cs
    rcases f with _ | s <;> rfl

/-- Witness for the amended C6 at concrete inputs. -/
theorem marketSignals_cache_idempotence_witness :
    (analyzeMarketSize marketParseStub true (some "r") "Idea" [] 0).2.2 = 1
    ∧ analyzeMarketSize marketParseStub true none "Idea"
        (analyzeMarketSize marketParseStub true (some "r") "Idea" [] 0).2.1 1 =
      ((analyzeMarketSize marketParseStub true (some "r") "Idea" [] 0).1,
       (analyzeMarketSize marketParseStub true (some "r") "Idea" [] 0).2.1, 0) :=
  marketSignals_cache_idempotence.1 marketParseStub "Idea" "r" [] 0 1 none rfl
    (by omega) (by omega)

/-! ### extractCompetitorNames (competitor server module, lines 463-510)

Three strategies, each a hand-compiled regex scanner.  All scanners walk the
start positions left to right, and on a match continue after it (the
semantics of `matchAll`); the character classes at every pattern boundary
are disjoint, so greedy runs need no backtracking, and the one lazy group
(strategy 2) grows shortest-first. -/

def isDash (c : Char) : Bool := c == '–' || c == '—' || c == '-'

/-- Strategy 1 body: `/\d+\.\s*\*\*([^*]+)\*\*/` at the current position;
returns the captured group and the rest after the whole match. -/
def strat1Try (cs : List Char) : Option (List Char × List Char) :=
  if (cs.takeWhile Char.isDigit).isEmpty then none
  else
    match cs.dropWhile Char.isDigit with
    | '.' :: r1 =>
      match r1.dropWhile jsWhitespace with
      | '*' :: '*' :: r2 =>
        if (r2.takeWhile (fun c => c != '*')).isEmpty then none
        else
          match r2.dropWhile (fun c => c != '*') with
          | '*' :: '*' :: r3 => some (r2.takeWhile (fun c => c != '*'), r3)
          | _ => none
      | _ => none
    | _ => none

def strat1Aux : ℕ → List Char → List (List Char)
  | 0, _ => []
  | _ + 1, [] => []
  | fuel + 1, c :: rest =>
    match strat1Try (c :: rest) with
    | some (g, r) => g :: strat1Aux fuel r
    | none => strat1Aux fuel rest

def strat1Matches (cs : List Char) : List (List Char) := strat1Aux cs.length cs

/-- Strategy 1 (lines 467-476): bold numbered-list entries; each captured
name is trimmed, cut at the first `–`/`—`/`-` (the `split(/\s*[–—-]\s*/)[0]`
followed by `trim` equals cutting at the first dash and trimming), and kept
when longer than 2. -/
def strat1 (content : String) : List String :=
  ((strat1Matches content.data).map
      (fun g => jsTrim ((jsTrim g).takeWhile (fun c => !isDash c)))).filterMap
    (fun n => if 2 < n.length then some (String.mk n) else none)

def strat2Class (c : Char) : Bool :=
  c.isUpper || c.isLower || c.isDigit || jsWhitespace c || c == '&' || c == '.' ||
    c == '(' || c == ')'

/-- The terminator `(?:\s*[–—-]|\s+(?:is|offers|provides)|$)` of strategy 2,
alternatives tried in order; returns the rest after the terminator. -/
def strat2Term (cs : List Char) : Option (List Char) :=
  (match cs.dropWhile jsWhitespace with
   | c :: r => if isDash c then some r else none
   | [] => none)
  <|>
  (if (cs.takeWhile jsWhitespace).isEmpty then none
   else if List.isPrefixOf "is".data (cs.dropWhile jsWhitespace) then
     some ((cs.dropWhile jsWhitespace).drop 2)
   else if List.isPrefixOf "offers".data (cs.dropWhile jsWhitespace) then
     some ((cs.dropWhile jsWhitespace).drop 6)
   else if List.isPrefixOf "provides".data (cs.dropWhile jsWhitespace) then
     some ((cs.dropWhile jsWhitespace).drop 8)
   else none)
  <|>
  (if cs.isEmpty then some [] else none)

/-- The lazy tail `[A-Za-z0-9\s&.()]+?`: consume one class character, then
try the terminator, growing only on failure (shortest match wins). -/
def strat2Grow (acc : List Char) : List Char → Option (List Char × List Char)
  | [] => none
  | c :: rest =>
    if strat2Class c then
      match strat2Term rest with
      | some after => some (acc ++ [c], after)
      | none => strat2Grow (acc ++ [c]) rest
    else none

/-- Strategy 2 body: `/\d+\.\s*([A-Z][A-Za-z0-9\s&.()]+?)(?:...)/` at the
current position. -/
def strat2Try (cs : List Char) : Option (List Char × List Char) :=
  if (cs.takeWhile Char.isDigit).isEmpty then none
  else
    match cs.dropWhile Char.isDigit with
    | '.' :: r1 =>
      match r1.dropWhile jsWhitespace with
      | c0 :: r2 =>
        if c0.isUpper then
          match strat2Grow [] r2 with
          | some (tail, after) => some (c0 :: tail, after)
          | none => none
        else none
      | [] => none
    | _ => none

def strat2Aux : ℕ → List Char → List (List Char)
  | 0, _ => []
  | _ + 1, [] => []
  | fuel + 1, c :: rest =>
    match strat2Try (c :: rest) with
    | some (g, r) => g :: strat2Aux fuel r
    | none => strat2Aux fuel rest

def strat2Matches (cs : List Char) : List (List Char) := strat2Aux cs.length cs

/-- One step of `replace(/\s*\([^)]+\)/g, '')` at the current position. -/
def parensTry (cs : List Char) : Option (List Char) :=
  match cs.dropWhile jsWhitespace with
  | '(' :: r1 =>
    if (r1.takeWhile (fun c => c != ')')).isEmpty then none
    else
      match r1.dropWhile (fun c => c != ')') with
      | ')' :: r2 => some r2
      | _ => none
  | _ => none

def removeParensAux : ℕ → List Char → List Char
  | 0, cs => cs
  | _ + 1, [] => []
  | fuel + 1, c :: rest =>
    match parensTry (c :: rest) with
    | some r => removeParensAux fuel r
    | none => c :: removeParensAux fuel rest

def removeParens (cs : List Char) : List Char := removeParensAux cs.length cs

/-- `/^(The|Best|Top|Leading|Popular|Main|These)/i`. -/
def startsWithGeneric (cs : List Char) : Bool :=
  ["the", "best", "top", "leading", "popular", "main", "these"].any
    (fun w => List.isPrefixOf w.data (toLowerList cs))

/-- Strategy 2 (lines 479-489): plain numbered entries starting with a
capital; parenthetical additions removed, generic lead words excluded. -/
def strat2 (content : String) : List String :=
  ((strat2Matches content.data).map (fun g => jsTrim (removeParens (jsTrim g)))).filterMap
    (fun n =>
      if 2 < n.length ∧ ¬(startsWithGeneric n = true) then some (String.mk n) else none)

/-- Case-insensitive literal prefix; returns the rest on success. -/
def ciPrefix : List Char → List Char → Option (List Char)
  | [], rest => some rest
  | _ :: _, [] => none
  | p :: ps, c :: rest => if c.toLower == p then ciPrefix ps rest else none

/-- Strategy 3 body: `/companies?\s+(?:like|such as|including)\s+([^.]+)/i`
at the current position; returns the captured group. -/
def strat3Try (cs : List Char) : Option (List Char) :=
  match ciPrefix "companie".data cs with
  | none => none
  | some r0 =>
    let r1 := match r0 with
      | c :: rest => if c.toLower == 's' then rest else r0
      | [] => r0
    if (r1.takeWhile jsWhitespace).isEmpty then none
    else
      match (ciPrefix "like".data (r1.dropWhile jsWhitespace)
          <|> ciPrefix "such as".data (r1.dropWhile jsWhitespace)
          <|> ciPrefix "including".data (r1.dropWhile jsWhitespace)) with
      | none => none
      | some r3 =>
        if (r3.takeWhile jsWhitespace).isEmpty then none
        else if ((r3.dropWhile jsWhitespace).takeWhile (fun c => c != '.')).isEmpty then
          -- `[^.]+` fails right after the greedy whitespace run (next is `.`
          -- or end of input), so `\s+` backtracks one character: with a run
          -- of length ≥ 2 the capture is that single whitespace character;
          -- a run of length 1 cannot give one up and the attempt fails.
          if 2 ≤ (r3.takeWhile jsWhitespace).length then
            some [(r3.takeWhile jsWhitespace).getLastD ' ']
          else none
        else some ((r3.dropWhile jsWhitespace).takeWhile (fun c => c != '.'))

def strat3Scan : List Char → Option (List Char)
  | [] => none
  | c :: rest =>
    match strat3Try (c :: rest) with
    | some g => some g
    | none => strat3Scan rest

/-- First separator match of `/,|\sand\s/` (the `and` literal is
case-sensitive); returns the piece before it and the rest after it. -/
def splitSepAnd : List Char → Option (List Char × List Char)
  | [] => none
  | ',' :: rest => some ([], rest)
  | c :: rest =>
    if jsWhitespace c then
      match rest with
      | 'a' :: 'n' :: 'd' :: d :: r2 =>
        if jsWhitespace d then some ([], r2)
        else (splitSepAnd rest).map (fun pr => (c :: pr.1, pr.2))
      | _ => (splitSepAnd rest).map (fun pr => (c :: pr.1, pr.2))
    else (splitSepAnd rest).map (fun pr => (c :: pr.1, pr.2))

def splitAndCommaAux : ℕ → List Char → List (List Char)
  | 0, cs => [cs]
  | fuel + 1, cs =>
    match splitSepAnd cs with
    | none => [cs]
    | some (p, r) => p :: splitAndCommaAux fuel r

def splitAndComma (cs : List Char) : List (List Char) := splitAndCommaAux cs.length cs

/-- Strategy 3 (lines 492-504): the `companies like/such as/including X, Y,
and Z` sentence pattern, split on commas and `and`, with `*` and `"`
removed after trimming. -/
def strat3 (content : String) : List String :=
  match strat3Scan content.data with
  | none => []
  | some g =>
    (splitAndComma g).filterMap
      (fun p =>
        if 2 < ((jsTrim p).filter (fun c => !(c == '*') && !(c == '"'))).length then
          some (String.mk ((jsTrim p).filter (fun c => !(c == '*') && !(c == '"'))))
        else none)

/-- `[...new Set(names)]`: deduplicate keeping the first occurrence. -/
def dedupFirstAux (seen : List String) : List String → List String
  | [] => []
  | x :: xs => if x ∈ seen then dedupFirstAux seen xs else x :: dedupFirstAux (x :: seen) xs

def dedupFirst (l : List String) : List String := dedupFirstAux [] l

/-- `extractCompetitorNames`: strategy 2 only when strategy 1 found nothing,
strategy 3 only when both found nothing, then `Set`-deduplication. -/
def extractCompetitorNames (content : String) : List String :=
  if (strat1 content).isEmpty then
    if (strat2 content).isEmpty then dedupFirst (strat3 content)
    else dedupFirst (strat2 content)
  else dedupFirst (strat1 content)

theorem dedupFirstAux_nodup (l : List String) :
    ∀ seen, (dedupFirstAux seen l).Nodup ∧ ∀ x ∈ dedupFirstAux seen l, x ∉ seen := by
  induction l with
  | nil =>
    intro seen
    exact ⟨List.nodup_nil, fun x hx => absurd hx (List.not_mem_nil x)⟩
  | cons a tl ih =>
    intro seen
    by_cases ha : a ∈ seen
    · simp only [dedupFirstAux, if_pos ha]
      exact ih seen
    · simp only [dedupFirstAux, if_neg ha]
      obtain ⟨hnd, hmem⟩ := ih (a :: seen)
      refine ⟨List.Nodup.cons (fun hc => hmem a hc (List.mem_cons_self a seen)) hnd, ?_⟩
      intro x hx
      rcases List.mem_cons.mp hx with rfl | hx2
      · exact ha
      · exact fun hxs => hmem x hx2 (List.mem_cons_of_mem a hxs)

theorem dedupFirst_nodup (l : List String) : (dedupFirst l).Nodup :=
  (dedupFirstAux_nodup l []).1

/-- C8: `extractCompetitorNames` tries its three strategies in order, each
only when the previous produced zero names, deduplicates the chosen list
keeping the first occurrence (so the result never has duplicates), returns
the empty list when all strategies fail, and on
`"1. **Notion** – workspace tool\n2. **Obsidian** – notes app"` returns
`["Notion", "Obsidian"]` in that order. -/
theorem extractCompetitorNames_spec :
    extractCompetitorNames "1. **Notion** – workspace tool\n2. **Obsidian** – notes app" =
      ["Notion", "Obsidian"]
    ∧ (∀ content, strat1 content ≠ [] →
        extractCompetitorNames content = dedupFirst (strat1 content))
    ∧ (∀ content, strat1 content = [] → strat2 content ≠ [] →
        extractCompetitorNames content = dedupFirst (strat2 content))
    ∧ (∀ content, strat1 content = [] → strat2 content = [] →
        extractCompetitorNames content = dedupFirst (strat3 content))
    ∧ (∀ content, strat1 content = [] → strat2 content = [] → strat3 content = [] →
        extractCompetitorNames content = [])
    ∧ (∀ content, (extractCompetitorNames content).Nodup) := by
  refine ⟨by decide, ?_, ?_, ?_, ?_, ?_⟩
  · intro content h1
    unfold extractCompetitorNames
    rw [if_neg (by simpa [List.isEmpty_iff] using h1)]
  · intro content h1 h2
    unfold extractCompetitorNames
    rw [if_pos (by simpa [List.isEmpty_iff] using h1),
      if_neg (by simpa [List.isEmpty_iff] using h2)]
  · intro content h1 h2
    unfold extractCompetitorNames
    rw [if_pos (by simpa [List.isEmpty_iff] using h1),
      if_pos (by simpa [List.isEmpty_iff] using h2)]
  · intro content h1 h2 h3
    unfold extractCompetitorNames
    rw [if_pos (by simpa [List.isEmpty_iff] using h1),
      if_pos (by simpa [List.isEmpty_iff] using h2), h3]
    rfl
  · intro content
    unfold extractCompetitorNames
    split_ifs <;> exact dedupFirst_nodup _

/-- Witness for C8: every strategy fails on plain text, giving the empty
list. -/
theorem extractCompetitorNames_spec_witness :
    extractCompetitorNames "no names in this text" = [] :=
  extractCompetitorNames_spec.2.2.2.2.1 "no names in this text" (by decide) (by decide)
    (by decide)

end LaunchLens
